import Mathlib

set_option maxRecDepth 8000

/-!
Verification of the SDK-generator editor extension core (`sdkGenerator.js`).

The JavaScript source is shallowly embedded: strings are Lean `String`
(one `Char` per code point, which coincides with the JavaScript view on
the ASCII data the fixed tables use), the file system visible to the
scanner is an explicit entry tree in which each fallible I/O operation
carries its possible failure, and each remote HTTP call is represented
by its outcome.  The regular expressions of the source are embedded as
the equivalent leftmost-match / shortest-lazy-body string searches.
-/

/-- Character class of JavaScript whitespace (regex `\s`, `trim`),
restricted to the code points relevant here. -/
def jsWs (c : Char) : Bool :=
  c == ' ' || c == '\t' || c == '\n' || c == '\r' || c == '\x0b' || c == '\x0c' || c == '\u00a0'

/-- JavaScript `String.prototype.trim`: drop leading and trailing whitespace. -/
def jsTrim (s : String) : String :=
  String.mk (((s.data.dropWhile fun c => jsWs c).reverse.dropWhile fun c => jsWs c).reverse)

/-- JavaScript `String.prototype.toLowerCase` (ASCII range). -/
def toLowerStr (s : String) : String := String.mk (s.data.map Char.toLower)

/-- Split a character list at the first occurrence of `needle`:
`splitFirst needle hay = some (pre, post)` when `hay = pre ++ needle ++ post`
with `pre` shortest possible, and `none` when `needle` does not occur.
This is the leftmost-match search underlying the regular expressions of
the source (`matchAll` and taking the first match). -/
def splitFirst (needle : List Char) : List Char → Option (List Char × List Char)
  | [] => if needle = [] then some ([], []) else none
  | c :: cs =>
    if needle.isPrefixOf (c :: cs) then
      some ([], (c :: cs).drop needle.length)
    else
      match splitFirst needle cs with
      | some (pre, post) => some (c :: pre, post)
      | none => none

/-- Body of the first fenced block opened by `openMarker` and closed by three
backticks: the lazy capture group of the source regex.  A later opener
occurrence can never succeed when the first one has no closer, because any
later opener starts with three backticks and would itself be a closer. -/
def extractFirstBlock (openMarker : List Char) (content : List Char) : Option (List Char) :=
  match splitFirst openMarker content with
  | none => none
  | some (_, rest) =>
    match splitFirst ("```".data) rest with
    | none => none
    | some (body, _) => some body

/-- Function `extractCodeFromMarkdown` of the source: first a block tagged
with `language` (case-sensitive), then an untagged block (three backticks
followed by a newline), then the whole content; the result is trimmed. -/
def extractCodeFromMarkdown (content language : String) : String :=
  match extractFirstBlock (("```" ++ language ++ "\n").data) content.data with
  | some body => jsTrim (String.mk body)
  | none =>
    match extractFirstBlock ("```\n".data) content.data with
    | some body => jsTrim (String.mk body)
    | none => jsTrim content

/-- Replacement of every hyphen by an underscore, the effect of the first
global `replace` of `generateFilename`. -/
def replaceHyphens (cs : List Char) : List Char :=
  cs.map fun c => if c = '-' then '_' else c

/-- Replacement of each maximal whitespace run by a single underscore, the
effect of the second `replace` of `generateFilename`; `inRun` records whether
the current position continues a run whose underscore was already emitted. -/
def collapseWsAux (inRun : Bool) : List Char → List Char
  | [] => []
  | c :: cs =>
    if jsWs c then
      if inRun then collapseWsAux true cs else '_' :: collapseWsAux true cs
    else c :: collapseWsAux false cs

/-- Fixed language-to-extension table of `generateFilename`. -/
def languageExtensions : List (String × String) :=
  [("python", ".py"), ("javascript", ".js"), ("typescript", ".ts"),
   ("java", ".java"), ("go", ".go"), ("rust", ".rs")]

/-- Normalisation step of `generateFilename`: lower-case, hyphens to
underscores, whitespace runs to single underscores. -/
def normalizeSdkName (sdkName : String) : String :=
  String.mk (collapseWsAux false (replaceHyphens (toLowerStr sdkName).data))

/-- Function `generateFilename` of the source. -/
def generateFilename (sdkName language : String) : String :=
  let ext :=
    match languageExtensions.lookup (toLowerStr language) with
    | some e => e
    | none => ".txt"
  normalizeSdkName sdkName ++ "_util" ++ ext

/-- Fixed list of well-known service names checked by `extractSdkName`. -/
def sdkNames : List String :=
  ["sendgrid", "stripe", "twilio", "aws", "mailgun", "firebase"]

/-- JavaScript `String.prototype.includes`. -/
def containsSub (hay needle : String) : Bool :=
  (splitFirst needle.data hay.data).isSome

/-- Word characters `[A-Za-z0-9_]`, the regex class used by the fallback. -/
def isWordChar (c : Char) : Bool := c.isAlphanum || c == '_'

/-- Attempt of the regex `(?:generate|create)\s+(\w+)` anchored at the
current position for one keyword: the keyword, at least one whitespace
character, then the captured maximal word-character run. -/
def matchKeywordAt (kw : List Char) (cs : List Char) : Option (List Char) :=
  if kw.isPrefixOf cs then
    let rest := cs.drop kw.length
    if (rest.takeWhile fun c => jsWs c).isEmpty then none
    else
      let word := (rest.dropWhile fun c => jsWs c).takeWhile fun c => isWordChar c
      if word.isEmpty then none else some word
  else none

/-- Leftmost match of `(?:generate|create)\s+(\w+)`, returning the capture. -/
def findGenerateCreate : List Char → Option (List Char)
  | [] => none
  | c :: cs =>
    match matchKeywordAt ("generate".data) (c :: cs) with
    | some w => some w
    | none =>
      match matchKeywordAt ("create".data) (c :: cs) with
      | some w => some w
      | none => findGenerateCreate cs

/-- Function `extractSdkName` of the source: known names by case-insensitive
substring match in list order, then the regex fallback, then the literal
fallback name. -/
def extractSdkName (message : String) : String :=
  let lowerMsg := toLowerStr message
  match sdkNames.find? (fun sdk => containsSub lowerMsg sdk) with
  | some sdk => sdk
  | none =>
    match findGenerateCreate lowerMsg.data with
    | some w => String.mk w
    | none => "sdk"

/-- Directory names the scanner never descends into. -/
def excludeDirs : List String :=
  ["node_modules", ".git", "venv", "__pycache__", ".vscode", "dist", "build"]

/-- Extension allow-list of the scanner. -/
def includeExtensions : List String :=
  [".py", ".js", ".ts", ".java", ".go", ".rs", ".txt", ".md", ".json", ".yaml", ".yml"]

/-- Per-file size cap of the scanner (bytes, from `fs.stat`). -/
def maxFileSize : Nat := 100000

/-- Global cap on the number of scanned files. -/
def maxFiles : Nat := 50

/-- Index of the last dot in a character list, if any. -/
def lastDotIdx : List Char → Option Nat
  | [] => none
  | c :: cs =>
    match lastDotIdx cs with
    | some i => some (i + 1)
    | none => if c = '.' then some 0 else none

/-- Node.js `path.extname` on a directory-entry base name: the suffix from
the last dot, empty when there is no dot or the only dot leads the name. -/
def extname (s : String) : String :=
  match lastDotIdx s.data with
  | none => ""
  | some 0 => ""
  | some i => String.mk (s.data.drop i)

/-- One directory entry as the scanner sees it.  Fallible operations carry
their failure explicitly: a `file` with `stat = none` is one whose `fs.stat`
throws, one with `content = none` is one whose `fs.readFile` throws, a
`dirErr` is a directory whose `fs.readdir` throws, and `other` is an entry
that is neither a regular file nor a directory. -/
inductive FsEntry where
  | file (name : String) (stat : Option Nat) (content : Option String)
  | dirOk (name : String) (entries : List FsEntry)
  | dirErr (name : String)
  | other (name : String)

/-- A record pushed by the scanner (the `{path, name, content}` object);
the workspace-relative path is kept as its components. -/
structure ScannedFile where
  path : List String
  name : String
  content : String
deriving DecidableEq

/-- File branch of the scanner loop: extension allow-list, `fs.stat` with
the size cap, `fs.readFile`, any per-file error skipped. -/
def scanFileEntry (acc : List ScannedFile) (rel : List String)
    (name : String) (stat : Option Nat) (content : Option String) : List ScannedFile :=
  if extname name ∈ includeExtensions then
    match stat with
    | none => acc
    | some size =>
      if size ≤ maxFileSize then
        match content with
        | none => acc
        | some text => acc ++ [⟨rel ++ [name], name, text⟩]
      else acc
  else acc

/-- The recursive `readDir` loop of `scanWorkspace`: depth-first, excluded
directories not descended into, unreadable entries skipped, the accumulated
list capped at `maxFiles`. -/
def scanList (acc : List ScannedFile) (rel : List String) (entries : List FsEntry) :
    List ScannedFile :=
  match entries with
  | [] => acc
  | e :: es =>
    if acc.length ≥ maxFiles then acc
    else
      match e with
      | .file name stat content => scanList (scanFileEntry acc rel name stat content) rel es
      | .dirOk name sub =>
          if name ∈ excludeDirs then scanList acc rel es
          else scanList (scanList acc (rel ++ [name]) sub) rel es
      | .dirErr _ => scanList acc rel es
      | .other _ => scanList acc rel es
termination_by sizeOf entries
decreasing_by all_goals (simp_wf <;> omega)

/-- Function `scanWorkspace` of the source, on the root listing (`none` when
even the root `readdir` fails, which the scanner also swallows). -/
def scanWorkspace (root : Option (List FsEntry)) : List ScannedFile :=
  match root with
  | none => []
  | some entries => scanList [] [] entries

/-- The tree contains, at the relative path `comps`, a file whose `fs.stat`
reported `size` and whose `fs.readFile` returned `text`. -/
inductive FileIn : List FsEntry → List String → Nat → String → Prop where
  | here {entries name size text} :
      FsEntry.file name (some size) (some text) ∈ entries →
      FileIn entries [name] size text
  | deeper {entries dname sub comps size text} :
      FsEntry.dirOk dname sub ∈ entries → FileIn sub comps size text →
      FileIn entries (dname :: comps) size text

/-- Remove every entry whose read fails (`fs.stat`, `fs.readFile` or
`fs.readdir` errors), keeping everything the scanner can actually read. -/
def pruneErrors : List FsEntry → List FsEntry
  | [] => []
  | FsEntry.file name stat content :: es =>
    match stat, content with
    | some size, some text => FsEntry.file name (some size) (some text) :: pruneErrors es
    | some _, none => pruneErrors es
    | none, some _ => pruneErrors es
    | none, none => pruneErrors es
  | FsEntry.dirOk name sub :: es => FsEntry.dirOk name (pruneErrors sub) :: pruneErrors es
  | FsEntry.dirErr _ :: es => pruneErrors es
  | FsEntry.other name :: es => FsEntry.other name :: pruneErrors es
termination_by es => sizeOf es
decreasing_by all_goals (simp_wf <;> omega)

/-- Total context budget of the prompt assembler. -/
def MAX_CONTEXT_LENGTH : Nat := 50000

/-- POSIX join of the relative-path components (the `path.relative` output). -/
def pathString (p : List String) : String := String.intercalate "/" p

/-- The labelled `fileContext` block built for one scanned file. -/
def fileContextBlock (f : ScannedFile) : String :=
  "File: " ++ pathString f.path ++ "\n```\n" ++ f.content ++ "\n```\n\n"

/-- The packing loop of `getIntegrationInstructions`: append a block only
when the running total stays strictly below the budget, stop at the first
block that does not fit. -/
def assembleLoop (maxLen : Nat) (ctx : String) (count : Nat) :
    List ScannedFile → String × Nat
  | [] => (ctx, count)
  | f :: fs =>
    if ctx.length + (fileContextBlock f).length < maxLen then
      assembleLoop maxLen (ctx ++ fileContextBlock f) (count + 1) fs
    else (ctx, count)

/-- Prompt-budget assembly: pack scanned files greedily in order, returning
the assembled text and the number of files included. -/
def assembleContext (files : List ScannedFile) (maxLen : Nat) : String × Nat :=
  assembleLoop maxLen "" 0 files

/-- Concatenation of the formatted blocks of a list of files. -/
def concatBlocks : List ScannedFile → String
  | [] => ""
  | f :: fs => fileContextBlock f ++ concatBlocks fs

/-- Outcome of the integration-instructions HTTP call: a parsed response
with its optional `content` field, a timeout (`error.code` equal to
`ECONNABORTED`), or any other transport failure with its message. -/
inductive IntegrationOutcome where
  | response (content : Option String)
  | timeout
  | failure (msg : String)
deriving DecidableEq

/-- Function `getIntegrationInstructions` of the source: assemble the
budgeted workspace context and the prompt, then translate the outcome of
the call into the user-facing message; every error is handled locally and
never rethrown. -/
def getIntegrationInstructions (sdkName filename utilCode : String)
    (workspaceFiles : List ScannedFile) (outcome : IntegrationOutcome) : String :=
  let assembled := assembleContext workspaceFiles MAX_CONTEXT_LENGTH
  let contextSummary :=
    if assembled.2 < workspaceFiles.length then
      "(Showing " ++ toString assembled.2 ++ " of " ++ toString workspaceFiles.length
        ++ " files due to size limits)"
    else "(All " ++ toString workspaceFiles.length ++ " files included)"
  let _prompt :=
    "I just generated a utility file \"" ++ filename ++ "\" for " ++ sdkName
      ++ " SDK integration.\n\nHere\u0027s the generated utility code:\n```python\n"
      ++ utilCode ++ "\n```\n\nHere are the files in my workspace " ++ contextSummary
      ++ ":\n" ++ assembled.1
      ++ "\n\nPlease provide DETAILED step-by-step instructions to use the utility code generated based on the files in my workspace. Keep each and everything simple and easy to follow according to this workspace context\n\nFormat your response with clear headers, file names, and code blocks. Be specific about where to make changes in MY existing files."
  match outcome with
  | .response none =>
      "📄 File created successfully!\n\nIntegration instructions not available. Please refer to the "
        ++ sdkName ++ " documentation."
  | .response (some content) =>
      if content = "" then
        "📄 File created successfully!\n\nIntegration instructions not available. Please refer to the "
          ++ sdkName ++ " documentation."
      else "📚 HOW TO INTEGRATE:\n\n" ++ content
  | .timeout =>
      "📄 File created successfully!\n\n⏱️ Integration instruction request timed out. Your workspace might be too large.\n\nPlease refer to the "
        ++ sdkName ++ " documentation or try with a smaller workspace."
  | .failure msg =>
      "📄 File created successfully!\n\n⚠️ Couldn\u0027t fetch integration instructions: "
        ++ msg ++ "\n\nPlease refer to the " ++ sdkName ++ " documentation."

/-- Outcome of the code-generation call: `callAiApi` throwing (transport
error), `JSON.parse` throwing, or a parsed response with the optional
`choices[0].message.content` field (where `some PLACEHOLDER` may carry the
empty string, which the falsy check treats like an absent field). -/
inductive GenOutcome where
  | transportError (msg : String)
  | parseError (msg : String)
  | response (content : Option String)
deriving DecidableEq

/-- Environment of one `createSdkUtilFile` run: the outcomes of every
external effect the orchestrator performs, in program order. -/
structure OrchEnv where
  userMessage : String
  genOutcome : GenOutcome
  workspace : Option (Option (List FsEntry))
  writeOk : Bool
  writeErrMsg : String
  openOk : Bool
  openErrMsg : String
  integrationOutcome : IntegrationOutcome

/-- A completed `fs.writeFile` (path relative to the workspace root). -/
structure FileWrite where
  path : List String
  content : String
deriving DecidableEq

/-- Function `createSdkUtilFile` of the source: the result (success message
or the error wrapped by the single outer catch) together with the list of
file writes performed during the run. -/
def createSdkUtilFile (env : OrchEnv) : Except String String × List FileWrite :=
  let sdkName := extractSdkName env.userMessage
  match env.genOutcome with
  | .transportError m =>
      (Except.error ("Failed to create SDK file: " ++ ("API call failed: " ++ m)), [])
  | .parseError m => (Except.error ("Failed to create SDK file: " ++ m), [])
  | .response contentOpt =>
    match contentOpt with
    | none => (Except.error ("Failed to create SDK file: No content found in AI response"), [])
    | some content =>
      if content = "" then
        (Except.error ("Failed to create SDK file: No content found in AI response"), [])
      else
        let code := extractCodeFromMarkdown content "python"
        let filename := generateFilename sdkName "python"
        match env.workspace with
        | none =>
            (Except.error
              ("Failed to create SDK file: No workspace folder open. Please open a folder first."),
             [])
        | some tree =>
          if env.writeOk then
            let write : FileWrite := ⟨["utils", filename], code⟩
            if env.openOk then
              let workspaceFiles := scanWorkspace tree
              let instructions :=
                getIntegrationInstructions sdkName filename code workspaceFiles
                  env.integrationOutcome
              (Except.ok ("✅ Successfully created: " ++ pathString write.path ++ "\n\n"
                ++ instructions ++ "\n\n📊 Analyzed " ++ toString workspaceFiles.length
                ++ " files from your workspace for context."), [write])
            else
              (Except.error ("Failed to create SDK file: " ++ env.openErrMsg), [write])
          else
            (Except.error
              ("Failed to create SDK file: " ++ ("File creation failed: " ++ env.writeErrMsg)),
             [])

/-- Sample environment used to exercise the orchestrator at concrete inputs. -/
def sampleEnv (g : GenOutcome) : OrchEnv :=
  { userMessage := "generate stripe util"
    genOutcome := g
    workspace := some (some [])
    writeOk := true
    writeErrMsg := ""
    openOk := true
    openErrMsg := ""
    integrationOutcome := IntegrationOutcome.timeout }

/-- Sample scanned file for concrete evaluations. -/
def sampleFileA : ScannedFile := ⟨["a.py"], "a.py", "hi"⟩

/-- Second sample scanned file for concrete evaluations. -/
def sampleFileB : ScannedFile := ⟨["b.py"], "b.py", "yo"⟩

/-! Properties of the leftmost-occurrence search `splitFirst`. -/

theorem splitFirst_some_decomp (needle : List Char) :
    ∀ (hay pre post : List Char), splitFirst needle hay = some (pre, post) →
      hay = pre ++ needle ++ post := by
  intro hay
  induction hay with
  | nil =>
    intro pre post h
    by_cases hn : needle = []
    · simp [splitFirst, hn] at h
      simp [hn, h.1, h.2]
    · simp [splitFirst, hn] at h
  | cons c cs ih =>
    intro pre post h
    simp only [splitFirst] at h
    split at h
    · rename_i hpref
      obtain ⟨t, ht⟩ := List.isPrefixOf_iff_prefix.mp hpref
      obtain ⟨rfl, rfl⟩ := Prod.mk.injEq .. ▸ Option.some.injEq .. ▸ h
      rw [← ht, List.drop_left' ?_]
      · simp [← ht]
      · rfl
    · split at h
      · rename_i b a hs
        obtain ⟨rfl, rfl⟩ := Prod.mk.injEq .. ▸ Option.some.injEq .. ▸ h
        simpa using ih b a hs
      · exact absurd h (by simp)

theorem splitFirst_eq_some_of_first (needle : List Char) :
    ∀ (pre post : List Char),
      (∀ j < pre.length, ¬ needle <+: (pre ++ needle ++ post).drop j) →
      splitFirst needle (pre ++ needle ++ post) = some (pre, post) := by
  intro pre
  induction pre with
  | nil =>
    intro post _
    simp only [List.nil_append]
    match hn : needle with
    | [] =>
      match post with
      | [] => simp [splitFirst]
      | x :: xs => simp [splitFirst]
    | n :: ns =>
      have hpref : (n :: ns).isPrefixOf (n :: ns ++ post) = true :=
        List.isPrefixOf_iff_prefix.mpr ⟨post, by simp⟩
      simp only [List.cons_append, splitFirst, hpref, if_true]
      simp [List.drop_left']
  | cons a pre ih =>
    intro post h
    have h0 : ¬ needle <+: (a :: (pre ++ needle ++ post)) := by
      have := h 0 (by simp)
      simpa using this
    have hpref : needle.isPrefixOf (a :: (pre ++ needle ++ post)) = false := by
      by_contra hb
      exact h0 (List.isPrefixOf_iff_prefix.mp (by simpa using hb))
    have hrec := ih post (fun j hj => by
      have := h (j + 1) (by simpa using hj)
      simpa using this)
    simp only [List.cons_append, splitFirst]
    split
    · rename_i hc
      exact absurd (by simpa using List.isPrefixOf_iff_prefix.mp (by simpa using hc)) h0
    · simp only [List.append_eq]
      rw [hrec]

theorem splitFirst_none_no_occur (needle : List Char) :
    ∀ hay, splitFirst needle hay = none → ∀ j, ¬ needle <+: hay.drop j := by
  intro hay
  induction hay with
  | nil =>
    intro h j hp
    have hn : needle ≠ [] := by
      intro he
      simp [splitFirst, he] at h
    exact hn (List.prefix_nil.mp (by simpa using hp))
  | cons c cs ih =>
    intro h j hp
    simp only [splitFirst] at h
    split at h
    · exact absurd h (by simp)
    · rename_i hpref
      match hs : splitFirst needle cs with
      | some (b, a) => rw [hs] at h; exact absurd h (by simp)
      | none =>
        match j with
        | 0 =>
          exact hpref (List.isPrefixOf_iff_prefix.mpr (by simpa using hp))
        | j + 1 =>
          exact ih hs j (by simpa using hp)

theorem splitFirst_none_of_no_occur (needle : List Char) :
    ∀ hay, (∀ j, ¬ needle <+: hay.drop j) → splitFirst needle hay = none := by
  intro hay
  induction hay with
  | nil =>
    intro h
    have hn : needle ≠ [] := by
      intro he
      exact h 0 (by simp [he])
    simp [splitFirst, hn]
  | cons c cs ih =>
    intro h
    have hpref : needle.isPrefixOf (c :: cs) = false := by
      by_contra hb
      exact h 0 (by simpa using List.isPrefixOf_iff_prefix.mp (by simpa using hb))
    have hrec := ih (fun j => by
      have := h (j + 1)
      simpa using this)
    simp [splitFirst, hpref, hrec]

/-- C5: for every content string containing at least one fenced block tagged
exactly (case-sensitively) with the given language — here presented as the
decomposition at the first such block, with no earlier opener occurrence and
a minimal body — `extractCodeFromMarkdown` returns exactly the trimmed inner
text of that first tagged block, ignoring all other blocks before or after. -/
theorem extractCodeFromMarkdown_tagged
    (content language : String) (pre body post : List Char)
    (hdec : content.data = pre ++ ("```" ++ language ++ "\n").data ++ (body ++ "```".data ++ post))
    (hfirst : ∀ j < pre.length, ¬ ("```" ++ language ++ "\n").data <+: content.data.drop j)
    (hbody : ∀ j < body.length, ¬ "```".data <+: (body ++ "```".data ++ post).drop j) :
    extractCodeFromMarkdown content language = jsTrim (String.mk body) := by
  have h1 : splitFirst (("```" ++ language ++ "\n").data) content.data
      = some (pre, body ++ "```".data ++ post) := by
    rw [hdec]
    exact splitFirst_eq_some_of_first _ pre (body ++ "```".data ++ post)
      (fun j hj => by rw [← hdec]; exact hfirst j hj)
  have h2 : splitFirst ("```".data) (body ++ "```".data ++ post) = some (body, post) :=
    splitFirst_eq_some_of_first _ body post hbody
  simp only [extractCodeFromMarkdown, extractFirstBlock, h1, h2]

/-- Witness for C5: a content string holding a differently-tagged block, the
targeted python block, and trailing text. -/
theorem extractCodeFromMarkdown_tagged_witness :
    extractCodeFromMarkdown "Intro\n```js\nvar x\n```\n```python\nprint(1)\n```\ntail" "python"
      = "print(1)" :=
  (extractCodeFromMarkdown_tagged "Intro\n```js\nvar x\n```\n```python\nprint(1)\n```\ntail"
      "python" ("Intro\n```js\nvar x\n```\n").data ("print(1)\n").data ("\ntail").data
      (by decide) (by decide) (by decide)).trans (by decide)

/-- C6: for every content string with no fenced block tagged with the given
language (no opener occurrence is ever followed by a closing fence) but with
at least one untagged fenced block — presented as the decomposition at the
first untagged block with a minimal body — `extractCodeFromMarkdown` returns
the trimmed inner text of the first untagged block. -/
theorem extractCodeFromMarkdown_untagged
    (content language : String) (pre body post : List Char)
    (hnotag : ∀ j k : Nat, ("```" ++ language ++ "\n").data <+: content.data.drop j →
        ¬ "```".data <+: (content.data.drop (j + ("```" ++ language ++ "\n").data.length)).drop k)
    (hdec : content.data = pre ++ "```\n".data ++ (body ++ "```".data ++ post))
    (hfirst : ∀ j < pre.length, ¬ "```\n".data <+: content.data.drop j)
    (hbody : ∀ j < body.length, ¬ "```".data <+: (body ++ "```".data ++ post).drop j) :
    extractCodeFromMarkdown content language = jsTrim (String.mk body) := by
  have htagged : extractFirstBlock (("```" ++ language ++ "\n").data) content.data = none := by
    unfold extractFirstBlock
    cases h1 : splitFirst (("```" ++ language ++ "\n").data) content.data with
    | none => rfl
    | some pr =>
      obtain ⟨p, rest⟩ := pr
      have hd := splitFirst_some_decomp _ _ _ _ h1
      have hdrop : content.data.drop (p.length + ("```" ++ language ++ "\n").data.length)
          = rest := by
        rw [hd, ← List.length_append]
        exact List.drop_left _ _
      have hpref : ("```" ++ language ++ "\n").data <+: content.data.drop p.length := by
        rw [hd, List.append_assoc, List.drop_left]
        exact ⟨rest, rfl⟩
      have h2 : splitFirst ("```".data) rest = none :=
        splitFirst_none_of_no_occur _ _ (fun k => by
          have := hnotag p.length k hpref
          rwa [hdrop] at this)
      simp [h2]
  have h3 : splitFirst ("```\n".data) content.data
      = some (pre, body ++ "```".data ++ post) := by
    rw [hdec]
    exact splitFirst_eq_some_of_first _ pre (body ++ "```".data ++ post)
      (fun j hj => by rw [← hdec]; exact hfirst j hj)
  have h4 : splitFirst ("```".data) (body ++ "```".data ++ post) = some (body, post) :=
    splitFirst_eq_some_of_first _ body post hbody
  simp only [extractCodeFromMarkdown, htagged]
  simp only [extractFirstBlock, h3, h4]

/-- Witness for C6: a content string whose only fenced block is untagged. -/
theorem extractCodeFromMarkdown_untagged_witness :
    extractCodeFromMarkdown "Note\n```\nfoo()\n```\nend" "python" = "foo()" :=
  (extractCodeFromMarkdown_untagged "Note\n```\nfoo()\n```\nend" "python"
      ("Note\n").data ("foo()\n").data ("\nend").data
      (fun j _k h => absurd h (splitFirst_none_no_occur _ _ (by decide) j))
      (by decide) (by decide) (by decide)).trans (by decide)

/-! Properties of the filename normalisation. -/

theorem replaceHyphens_no_hyphen (cs : List Char) : ∀ c ∈ replaceHyphens cs, c ≠ '-' := by
  intro c hc
  simp only [replaceHyphens, List.mem_map] at hc
  obtain ⟨x, _, rfl⟩ := hc
  by_cases hx : x = '-' <;> simp [hx]

theorem collapseWsAux_chars (cs : List Char) :
    ∀ (b : Bool), (∀ c ∈ cs, c ≠ '-') →
      ∀ c ∈ collapseWsAux b cs, c ≠ '-' ∧ jsWs c = false := by
  induction cs with
  | nil =>
    intro b _ c hc
    simp [collapseWsAux] at hc
  | cons x xs ih =>
    intro b hno c hc
    have hxs : ∀ c ∈ xs, c ≠ '-' := fun c h => hno c (List.mem_cons_of_mem _ h)
    rw [collapseWsAux] at hc
    by_cases hxw : jsWs x
    · rw [if_pos hxw] at hc
      cases b with
      | true =>
        rw [if_pos rfl] at hc
        exact ih true hxs c hc
      | false =>
        rw [if_neg (by simp)] at hc
        rcases List.mem_cons.mp hc with rfl | hc
        · exact ⟨by decide, by decide⟩
        · exact ih true hxs c hc
    · rw [if_neg hxw] at hc
      rcases List.mem_cons.mp hc with rfl | hc
      · exact ⟨hno c (List.mem_cons_self _ _), by simpa using hxw⟩
      · exact ih false hxs c hc

theorem lookup_mem_snd {α β : Type} [BEq α] :
    ∀ (l : List (α × β)) (a : α) (b : β), l.lookup a = some b → b ∈ l.map Prod.snd := by
  intro l
  induction l with
  | nil => intro a b h; simp [List.lookup] at h
  | cons p ps ih =>
    intro a b h
    obtain ⟨k, v⟩ := p
    rw [List.lookup] at h
    by_cases hk : (a == k) = true
    · rw [hk] at h
      simp only [Option.some.injEq] at h
      subst h
      exact List.mem_cons_self _ _
    · rw [Bool.not_eq_true] at hk
      rw [hk] at h
      exact List.mem_cons_of_mem _ (ih a b h)

/-- C7: `generateFilename` is a pure total function whose normalisation
leaves neither hyphens nor whitespace, which maps every language outside the
fixed table to the `.txt` fallback, whose result always is the normalised
name, the `_util` suffix and a table extension or the fallback, and which
sends `Send-Grid`/`python` to `send_grid_util.py`. -/
theorem generateFilename_spec :
    (∀ name : String, ∀ c ∈ (normalizeSdkName name).data, c ≠ '-' ∧ jsWs c = false) ∧
    (∀ name language : String, languageExtensions.lookup (toLowerStr language) = none →
        generateFilename name language = normalizeSdkName name ++ "_util" ++ ".txt") ∧
    (∀ name language : String, ∃ ext,
        generateFilename name language = normalizeSdkName name ++ "_util" ++ ext ∧
        (ext ∈ languageExtensions.map Prod.snd ∨ ext = ".txt")) ∧
    generateFilename "Send-Grid" "python" = "send_grid_util.py" := by
  refine ⟨?_, ?_, ?_, by decide⟩
  · intro name c hc
    exact collapseWsAux_chars _ false (replaceHyphens_no_hyphen _) c hc
  · intro name language h
    simp [generateFilename, h]
  · intro name language
    cases h : languageExtensions.lookup (toLowerStr language) with
    | none => exact ⟨".txt", by simp [generateFilename, h], Or.inr rfl⟩
    | some e => exact ⟨e, by simp [generateFilename, h], Or.inl (lookup_mem_snd _ _ _ h)⟩

/-- Witness for C7: an unknown language falls back to `.txt`, and the
normalised name contains the underscore the whitespace run became. -/
theorem generateFilename_spec_witness :
    generateFilename "My Service" "cobol" = normalizeSdkName "My Service" ++ "_util" ++ ".txt" ∧
    ('_' ≠ '-' ∧ jsWs '_' = false) :=
  ⟨generateFilename_spec.2.1 "My Service" "cobol" (by decide),
   generateFilename_spec.1 "My Service" '_' (by decide)⟩

/-! Properties of the service-name extraction. -/

theorem find?_decomp {α : Type} (p : α → Bool) :
    ∀ (l : List α) (a : α), l.find? p = some a →
      ∃ l₁ l₂, l = l₁ ++ a :: l₂ ∧ (∀ x ∈ l₁, p x = false) ∧ p a = true := by
  intro l
  induction l with
  | nil => intro a h; simp [List.find?] at h
  | cons x xs ih =>
    intro a h
    by_cases hx : p x
    · rw [List.find?_cons_of_pos _ hx] at h
      obtain rfl : x = a := by simpa using h
      exact ⟨[], xs, rfl, by simp, hx⟩
    · rw [List.find?_cons_of_neg _ hx] at h
      obtain ⟨l₁, l₂, hdec, hl₁, hp⟩ := ih a h
      refine ⟨x :: l₁, l₂, by simp [hdec], ?_, hp⟩
      intro y hy
      rcases List.mem_cons.mp hy with rfl | hy
      · simpa using hx
      · exact hl₁ y hy

/-- C8: service-name extraction first returns the first name of the fixed
list that occurs case-insensitively in the message; with no such name it
returns the word following `generate` or `create`; failing that it returns
the literal fallback `sdk`; and `generate stripe util` yields `stripe`,
which with the fixed language `python` yields the filename
`stripe_util.py`. -/
theorem extractSdkName_spec :
    (∀ msg : String, ∀ sdk ∈ sdkNames, containsSub (toLowerStr msg) sdk = true →
        ∃ l₁ l₂, sdkNames = l₁ ++ extractSdkName msg :: l₂ ∧
          (∀ s ∈ l₁, containsSub (toLowerStr msg) s = false) ∧
          containsSub (toLowerStr msg) (extractSdkName msg) = true) ∧
    (∀ msg : String, (∀ sdk ∈ sdkNames, containsSub (toLowerStr msg) sdk = false) →
        ∀ w, findGenerateCreate (toLowerStr msg).data = some w →
        extractSdkName msg = String.mk w) ∧
    (∀ msg : String, (∀ sdk ∈ sdkNames, containsSub (toLowerStr msg) sdk = false) →
        findGenerateCreate (toLowerStr msg).data = none →
        extractSdkName msg = "sdk") ∧
    extractSdkName "generate stripe util" = "stripe" ∧
    generateFilename "stripe" "python" = "stripe_util.py" := by
  refine ⟨?_, ?_, ?_, by decide, by decide⟩
  · intro msg sdk hmem hsub
    cases hfind : sdkNames.find? (fun s => containsSub (toLowerStr msg) s) with
    | none =>
      exact absurd hsub (by simpa using (List.find?_eq_none.mp hfind) sdk hmem)
    | some s =>
      have hres : extractSdkName msg = s := by
        simp only [extractSdkName, hfind]
      obtain ⟨l₁, l₂, hdec, hfalse, htrue⟩ := find?_decomp _ _ _ hfind
      refine ⟨l₁, l₂, by rw [hres]; exact hdec, ?_, by rw [hres]; simpa using htrue⟩
      intro t ht
      simpa using hfalse t ht
  · intro msg hall w hw
    have hfind : sdkNames.find? (fun s => containsSub (toLowerStr msg) s) = none :=
      List.find?_eq_none.mpr (fun x hx => by simp [hall x hx])
    simp only [extractSdkName, hfind, hw]
  · intro msg hall hw
    have hfind : sdkNames.find? (fun s => containsSub (toLowerStr msg) s) = none :=
      List.find?_eq_none.mpr (fun x hx => by simp [hall x hx])
    simp only [extractSdkName, hfind, hw]

/-- Witness for C8: the known name `stripe` occurs in the sample message and
is returned, with every earlier list entry absent from the message. -/
theorem extractSdkName_spec_witness :
    ∃ l₁ l₂, sdkNames = l₁ ++ extractSdkName "generate stripe util" :: l₂ ∧
      (∀ s ∈ l₁, containsSub (toLowerStr "generate stripe util") s = false) ∧
      containsSub (toLowerStr "generate stripe util") (extractSdkName "generate stripe util")
        = true :=
  extractSdkName_spec.1 "generate stripe util" "stripe" (by decide) (by decide)

/-! Properties of the workspace scanner. -/

theorem scanFileEntry_mem {acc : List ScannedFile} {rel : List String}
    {name : String} {stat : Option Nat} {content : Option String} {e : ScannedFile}
    (h : e ∈ scanFileEntry acc rel name stat content) :
    e ∈ acc ∨ ∃ size text, stat = some size ∧ content = some text ∧
      size ≤ maxFileSize ∧ extname name ∈ includeExtensions ∧
      e = ⟨rel ++ [name], name, text⟩ := by
  unfold scanFileEntry at h
  split at h
  · rename_i hext
    split at h
    · exact Or.inl h
    · rename_i size
      split at h
      · rename_i hsz
        split at h
        · exact Or.inl h
        · rename_i text
          rcases List.mem_append.mp h with h | h
          · exact Or.inl h
          · exact Or.inr ⟨size, text, rfl, rfl, hsz, hext, by simpa using h⟩
      · exact Or.inl h
  · exact Or.inl h

theorem scanFileEntry_error {acc : List ScannedFile} {rel : List String}
    {name : String} {stat : Option Nat} {content : Option String}
    (h : stat = none ∨ content = none) :
    scanFileEntry acc rel name stat content = acc := by
  unfold scanFileEntry
  rcases h with rfl | rfl
  · split <;> rfl
  · split
    · split
      · rfl
      · split
        · rfl
        · rfl
    · rfl

theorem scanFileEntry_length (acc : List ScannedFile) (rel : List String)
    (name : String) (stat : Option Nat) (content : Option String) :
    (scanFileEntry acc rel name stat content).length ≤ acc.length + 1 := by
  unfold scanFileEntry
  split
  · split
    · omega
    · split
      · split
        · omega
        · rename_i text
          simp
      · omega
  · omega

theorem FileIn.mono {es es' : List FsEntry} {comps : List String} {size : Nat} {text : String}
    (h : FileIn es comps size text) (hsub : ∀ x ∈ es, x ∈ es') :
    FileIn es' comps size text := by
  cases h with
  | here hm => exact FileIn.here (hsub _ hm)
  | deeper hm hi => exact FileIn.deeper (hsub _ hm) hi

theorem scanList_full {acc : List ScannedFile} {rel : List String} {entries : List FsEntry}
    (h : acc.length ≥ maxFiles) : scanList acc rel entries = acc := by
  cases entries with
  | nil => simp only [scanList]
  | cons e es =>
    cases e <;> (simp only [scanList]; rw [if_pos h])

theorem scanList_mem (acc : List ScannedFile) (rel : List String) (entries : List FsEntry) :
    ∀ e ∈ scanList acc rel entries, e ∈ acc ∨
      ∃ dirs size, e.path = rel ++ (dirs ++ [e.name]) ∧
        (∀ d ∈ dirs, d ∉ excludeDirs) ∧
        extname e.name ∈ includeExtensions ∧
        size ≤ maxFileSize ∧
        FileIn entries (dirs ++ [e.name]) size e.content := by
  induction acc, rel, entries using scanList.induct with
  | case1 acc rel =>
    intro e he
    simp only [scanList] at he
    exact Or.inl he
  | case2 acc rel e es hfull =>
    intro x hx
    rw [scanList_full hfull] at hx
    exact Or.inl hx
  | case3 acc rel es hfull name stat content ih =>
    intro x hx
    simp only [scanList] at hx
    rw [if_neg hfull] at hx
    rcases ih x hx with hmem | ⟨dirs, size, hp, hd, hext, hsz, hf⟩
    · rcases scanFileEntry_mem hmem with h | ⟨size, text, hst, hct, hsz, hext, rfl⟩
      · exact Or.inl h
      · refine Or.inr ⟨[], size, by simp, by simp, by simpa using hext, hsz, ?_⟩
        exact FileIn.here (by rw [hst, hct]; exact List.mem_cons_self _ _)
    · exact Or.inr ⟨dirs, size, hp, hd, hext, hsz,
        hf.mono (fun y hy => List.mem_cons_of_mem _ hy)⟩
  | case4 acc rel es hfull name sub hexcl ih =>
    intro x hx
    simp only [scanList] at hx
    rw [if_neg hfull, if_pos hexcl] at hx
    rcases ih x hx with h | ⟨dirs, size, hp, hd, hext, hsz, hf⟩
    · exact Or.inl h
    · exact Or.inr ⟨dirs, size, hp, hd, hext, hsz,
        hf.mono (fun y hy => List.mem_cons_of_mem _ hy)⟩
  | case5 acc rel es hfull name sub hexcl ihsub ihes =>
    intro x hx
    simp only [scanList] at hx
    rw [if_neg hfull, if_neg hexcl] at hx
    rcases ihes x hx with h | ⟨dirs, size, hp, hd, hext, hsz, hf⟩
    · rcases ihsub x h with h2 | ⟨dirs, size, hp, hd, hext, hsz, hf⟩
      · exact Or.inl h2
      · refine Or.inr ⟨name :: dirs, size, ?_, ?_, hext, hsz, ?_⟩
        · rw [hp]; simp
        · intro d hd2
          rcases List.mem_cons.mp hd2 with rfl | hd2
          · exact hexcl
          · exact hd d hd2
        · exact FileIn.deeper (List.mem_cons_self _ _) hf
    · exact Or.inr ⟨dirs, size, hp, hd, hext, hsz,
        hf.mono (fun y hy => List.mem_cons_of_mem _ hy)⟩
  | case6 acc rel es hfull name ih =>
    intro x hx
    simp only [scanList] at hx
    rw [if_neg hfull] at hx
    rcases ih x hx with h | ⟨dirs, size, hp, hd, hext, hsz, hf⟩
    · exact Or.inl h
    · exact Or.inr ⟨dirs, size, hp, hd, hext, hsz,
        hf.mono (fun y hy => List.mem_cons_of_mem _ hy)⟩
  | case7 acc rel es hfull name ih =>
    intro x hx
    simp only [scanList] at hx
    rw [if_neg hfull] at hx
    rcases ih x hx with h | ⟨dirs, size, hp, hd, hext, hsz, hf⟩
    · exact Or.inl h
    · exact Or.inr ⟨dirs, size, hp, hd, hext, hsz,
        hf.mono (fun y hy => List.mem_cons_of_mem _ hy)⟩

theorem scanList_le : ∀ (acc : List ScannedFile) (rel : List String) (entries : List FsEntry),
    acc.length ≤ maxFiles → (scanList acc rel entries).length ≤ maxFiles := by
  intro acc rel entries
  induction acc, rel, entries using scanList.induct with
  | case1 acc rel =>
    intro h
    simpa only [scanList] using h
  | case2 acc rel e es hfull =>
    intro h
    rw [scanList_full hfull]
    exact h
  | case3 acc rel es hfull name stat content ih =>
    intro h
    simp only [scanList]
    rw [if_neg hfull]
    refine ih ?_
    have := scanFileEntry_length acc rel name stat content
    omega
  | case4 acc rel es hfull name sub hexcl ih =>
    intro h
    simp only [scanList]
    rw [if_neg hfull, if_pos hexcl]
    exact ih h
  | case5 acc rel es hfull name sub hexcl ihsub ihes =>
    intro h
    simp only [scanList]
    rw [if_neg hfull, if_neg hexcl]
    exact ihes (ihsub h)
  | case6 acc rel es hfull name ih =>
    intro h
    simp only [scanList]
    rw [if_neg hfull]
    exact ih h
  | case7 acc rel es hfull name ih =>
    intro h
    simp only [scanList]
    rw [if_neg hfull]
    exact ih h

theorem not_excluded_of_ext {n : String} (h : extname n ∈ includeExtensions) :
    n ∉ excludeDirs := by
  intro hmem
  fin_cases hmem <;> exact absurd h (by decide)

/-- C1: for every root, every entry returned by the workspace scan has its
extension in the fixed allow-list, has a relative path with no component
equal to an excluded directory name at any nesting depth, stems from a file
whose stat-time size is at most 100000 bytes (and whose content was read
successfully), and the scan returns at most 50 entries. -/
theorem scanWorkspace_invariants (root : Option (List FsEntry)) :
    (scanWorkspace root).length ≤ maxFiles ∧
    ∀ e ∈ scanWorkspace root,
      extname e.name ∈ includeExtensions ∧
      (∀ comp ∈ e.path, comp ∉ excludeDirs) ∧
      ∃ size, size ≤ maxFileSize ∧ FileIn (root.getD []) e.path size e.content := by
  cases root with
  | none => simp [scanWorkspace]
  | some entries =>
    constructor
    · exact scanList_le [] [] entries (by simp [maxFiles])
    · intro e he
      rcases scanList_mem [] [] entries e he with h | ⟨dirs, size, hp, hd, hext, hsz, hf⟩
      · simp at h
      · refine ⟨hext, ?_, size, hsz, ?_⟩
        · intro comp hc
          rw [hp] at hc
          simp only [List.nil_append] at hc
          rcases List.mem_append.mp hc with h1 | h1
          · exact hd comp h1
          · have hcomp : comp = e.name := by simpa using h1
            subst hcomp
            exact not_excluded_of_ext hext
        · have hp2 : e.path = dirs ++ [e.name] := by simpa using hp
          rw [hp2]
          exact hf

/-- Witness for C1: scanning a one-file tree produces an entry for which the
invariants are discharged at a concrete input. -/
theorem scanWorkspace_invariants_witness :
    (scanWorkspace (some [FsEntry.file "a.py" (some 5) (some "hi")])).length ≤ maxFiles ∧
    (extname (ScannedFile.mk ["a.py"] "a.py" "hi").name ∈ includeExtensions ∧
     (∀ comp ∈ (ScannedFile.mk ["a.py"] "a.py" "hi").path, comp ∉ excludeDirs) ∧
     ∃ size, size ≤ maxFileSize ∧
       FileIn [FsEntry.file "a.py" (some 5) (some "hi")]
         (ScannedFile.mk ["a.py"] "a.py" "hi").path size
         (ScannedFile.mk ["a.py"] "a.py" "hi").content) :=
  ⟨(scanWorkspace_invariants (some [FsEntry.file "a.py" (some 5) (some "hi")])).1,
   (scanWorkspace_invariants (some [FsEntry.file "a.py" (some 5) (some "hi")])).2
     (ScannedFile.mk ["a.py"] "a.py" "hi")
     (by simp +decide [scanWorkspace, scanList, scanFileEntry])⟩

theorem scanList_prune : ∀ (entries : List FsEntry) (acc : List ScannedFile) (rel : List String),
    scanList acc rel (pruneErrors entries) = scanList acc rel entries := by
  intro entries
  induction entries using pruneErrors.induct with
  | case1 =>
    intro acc rel
    rw [pruneErrors]
  | case2 name es size text ih =>
    intro acc rel
    by_cases hfull : acc.length ≥ maxFiles
    · rw [scanList_full hfull, scanList_full hfull]
    · rw [pruneErrors]
      simp only [scanList]
      rw [if_neg hfull, if_neg hfull]
      exact ih _ rel
  | case3 name es size ih =>
    intro acc rel
    by_cases hfull : acc.length ≥ maxFiles
    · rw [scanList_full hfull, scanList_full hfull]
    · rw [pruneErrors]
      have hr : scanList acc rel (FsEntry.file name (some size) none :: es)
          = scanList acc rel es := by
        simp only [scanList]
        rw [if_neg hfull, scanFileEntry_error (Or.inr rfl)]
      rw [hr]
      exact ih acc rel
  | case4 name es text ih =>
    intro acc rel
    by_cases hfull : acc.length ≥ maxFiles
    · rw [scanList_full hfull, scanList_full hfull]
    · rw [pruneErrors]
      have hr : scanList acc rel (FsEntry.file name none (some text) :: es)
          = scanList acc rel es := by
        simp only [scanList]
        rw [if_neg hfull, scanFileEntry_error (Or.inl rfl)]
      rw [hr]
      exact ih acc rel
  | case5 name es ih =>
    intro acc rel
    by_cases hfull : acc.length ≥ maxFiles
    · rw [scanList_full hfull, scanList_full hfull]
    · rw [pruneErrors]
      have hr : scanList acc rel (FsEntry.file name none none :: es)
          = scanList acc rel es := by
        simp only [scanList]
        rw [if_neg hfull, scanFileEntry_error (Or.inl rfl)]
      rw [hr]
      exact ih acc rel
  | case6 name sub es ihsub ihes =>
    intro acc rel
    by_cases hfull : acc.length ≥ maxFiles
    · rw [scanList_full hfull, scanList_full hfull]
    · rw [pruneErrors]
      simp only [scanList]
      rw [if_neg hfull, if_neg hfull]
      by_cases hexcl : name ∈ excludeDirs
      · rw [if_pos hexcl, if_pos hexcl]
        exact ihes acc rel
      · rw [if_neg hexcl, if_neg hexcl, ihsub acc (rel ++ [name])]
        exact ihes _ rel
  | case7 name es ih =>
    intro acc rel
    by_cases hfull : acc.length ≥ maxFiles
    · rw [scanList_full hfull, scanList_full hfull]
    · rw [pruneErrors]
      simp only [scanList]
      rw [if_neg hfull]
      exact ih acc rel
  | case8 name es ih =>
    intro acc rel
    by_cases hfull : acc.length ≥ maxFiles
    · rw [scanList_full hfull, scanList_full hfull]
    · rw [pruneErrors]
      simp only [scanList]
      rw [if_neg hfull, if_neg hfull]
      exact ih acc rel

/-- C9: the workspace scan never throws for any root and any pattern of
per-entry I/O failures: every failing entry (unreadable file, failing stat,
failing directory listing) is skipped, so the scan of a tree equals the scan
of the tree with all failing entries removed — the array of the
successfully read files. -/
theorem scanWorkspace_skips_errors (root : Option (List FsEntry)) :
    scanWorkspace (Option.map pruneErrors root) = scanWorkspace root := by
  cases root with
  | none => rfl
  | some entries =>
    simp only [Option.map, scanWorkspace]
    exact scanList_prune entries [] []

/-! Properties of the prompt-budget assembler. -/

theorem assembleLoop_spec (maxLen : Nat) :
    ∀ (fs : List ScannedFile) (ctx : String) (count : Nat), ctx.length < maxLen →
    ∃ k, assembleLoop maxLen ctx count fs = (ctx ++ concatBlocks (fs.take k), count + k) ∧
      k ≤ fs.length ∧
      (ctx ++ concatBlocks (fs.take k)).length < maxLen ∧
      ∀ f, (fs.drop k).head? = some f →
        maxLen ≤ (ctx ++ concatBlocks (fs.take k)).length + (fileContextBlock f).length := by
  intro fs
  induction fs with
  | nil =>
    intro ctx count h
    refine ⟨0, ?_, by simp, ?_, ?_⟩
    · simp [assembleLoop, concatBlocks]
    · simpa [concatBlocks] using h
    · intro f hf
      simp at hf
  | cons g fs ih =>
    intro ctx count h
    by_cases hc : ctx.length + (fileContextBlock g).length < maxLen
    · obtain ⟨k, heq, hk, hlt, hstop⟩ :=
        ih (ctx ++ fileContextBlock g) (count + 1) (by simpa using hc)
    
      refine ⟨k + 1, ?_, by simpa using Nat.succ_le_succ hk, ?_, ?_⟩
      · simp only [assembleLoop]
        rw [if_pos hc, heq]
        have hcount : count + 1 + k = count + (k + 1) := by omega
        rw [hcount, List.take_succ_cons]
        simp only [concatBlocks, String.append_assoc]
      · rw [List.take_succ_cons]
        simp only [concatBlocks, ← String.append_assoc]
        exact hlt
      · intro f hf
        rw [List.drop_succ_cons] at hf
        have := hstop f hf
        rw [List.take_succ_cons]
        simpa [concatBlocks, ← String.append_assoc] using this
    · refine ⟨0, ?_, by simp, ?_, ?_⟩
      · simp only [assembleLoop]
        rw [if_neg hc]
        simp [concatBlocks]
      · simpa [concatBlocks] using h
      · intro f hf
        simp only [List.drop_zero, List.head?_cons, Option.some.injEq] at hf
        subst hf
        simp only [List.take_zero, concatBlocks, String.append_empty]
        omega

/-- C2: for every sequence of scanned files and every positive budget, the
assembly loop of `getIntegrationInstructions` returns a count of included
files that is at most the number of input files, an assembled text whose
length stays strictly below the budget, and the text is exactly the
concatenated blocks of a prefix of the input (greedy in input order);
iteration stops at the first file whose formatted block would not keep the
total strictly below the budget. -/
theorem assembleContext_spec (files : List ScannedFile) (maxLen : Nat) (hpos : 0 < maxLen) :
    (assembleContext files maxLen).2 ≤ files.length ∧
    (assembleContext files maxLen).1.length < maxLen ∧
    (assembleContext files maxLen).1 =
      concatBlocks (files.take (assembleContext files maxLen).2) ∧
    ∀ f, (files.drop (assembleContext files maxLen).2).head? = some f →
      maxLen ≤ (assembleContext files maxLen).1.length + (fileContextBlock f).length := by
  obtain ⟨k, heq, hk, hlt, hstop⟩ := assembleLoop_spec maxLen files "" 0 (by simpa using hpos)
  have h1 : assembleContext files maxLen = (concatBlocks (files.take k), k) := by
    rw [assembleContext, heq]
    simp
  rw [h1]
  refine ⟨hk, by simpa using hlt, rfl, ?_⟩
  intro f hf
  have := hstop f hf
  simpa using this

/-- Witness for C2: with a 40-character budget only the first sample file
fits and the stop condition holds at the second; with the real 50000 budget
both fit and the bounds hold. -/
theorem assembleContext_spec_witness :
    ((assembleContext [sampleFileA, sampleFileB] 40).2 ≤ 2 ∧
     40 ≤ (assembleContext [sampleFileA, sampleFileB] 40).1.length
            + (fileContextBlock sampleFileB).length) ∧
    ((assembleContext [sampleFileA, sampleFileB] 50000).2 ≤ 2 ∧
     (assembleContext [sampleFileA, sampleFileB] 50000).1.length < 50000) :=
  ⟨⟨(assembleContext_spec [sampleFileA, sampleFileB] 40 (by decide)).1,
    (assembleContext_spec [sampleFileA, sampleFileB] 40 (by decide)).2.2.2 sampleFileB
      (by decide)⟩,
   ⟨(assembleContext_spec [sampleFileA, sampleFileB] 50000 (by decide)).1,
    (assembleContext_spec [sampleFileA, sampleFileB] 50000 (by decide)).2.1⟩⟩

/-! Properties of the integration-instructions step and the orchestrator. -/

theorem infix_append_right {α : Type} {l a : List α} (b : List α) (h : l <:+: a) :
    l <:+: a ++ b := by
  obtain ⟨s, t, ht⟩ := h
  exact ⟨s, t ++ b, by rw [← ht]; simp⟩

theorem lt_length_append {α : Type} {n : Nat} {X : List α} (Y : List α) (h : n < X.length) :
    n < (X ++ Y).length := by
  simp only [List.length_append]
  omega

/-- C4: when the utility file is already written and the
integration-instructions call fails, `getIntegrationInstructions` returns
(never throws, being a total function) a degraded message containing the
`File created successfully` acknowledgment, the timeout message carries a
timeout-specific notice, and it differs from the message returned for every
other transport failure. -/
theorem getIntegrationInstructions_degraded (sdkName filename utilCode : String)
    (files : List ScannedFile) :
    ("File created successfully".data <:+:
      (getIntegrationInstructions sdkName filename utilCode files
        IntegrationOutcome.timeout).data) ∧
    (∀ m, "File created successfully".data <:+:
      (getIntegrationInstructions sdkName filename utilCode files
        (IntegrationOutcome.failure m)).data) ∧
    ("timed out".data <:+:
      (getIntegrationInstructions sdkName filename utilCode files
        IntegrationOutcome.timeout).data) ∧
    (∀ m, getIntegrationInstructions sdkName filename utilCode files IntegrationOutcome.timeout
        ≠ getIntegrationInstructions sdkName filename utilCode files
            (IntegrationOutcome.failure m)) := by
  refine ⟨?_, ?_, ?_, ?_⟩
  · simp only [getIntegrationInstructions, String.data_append]
    exact infix_append_right _ (infix_append_right _ (by decide))
  · intro m
    simp only [getIntegrationInstructions, String.data_append]
    exact infix_append_right _ (infix_append_right _ (infix_append_right _
      (infix_append_right _ (by decide))))
  · simp only [getIntegrationInstructions, String.data_append]
    exact infix_append_right _ (infix_append_right _ (by decide))
  · intro m h
    have hd := congrArg String.data h
    simp only [getIntegrationInstructions, String.data_append] at hd
    have h30 := congrArg (fun l => l[30]?) hd
    simp only at h30
    rw [List.getElem?_append_left, List.getElem?_append_left, List.getElem?_append_left,
        List.getElem?_append_left, List.getElem?_append_left,
        List.getElem?_append_left] at h30
    · exact absurd h30 (by decide)
    all_goals (repeat apply lt_length_append)
    all_goals decide

/-- Witness for C4: the degraded messages at concrete inputs, with the
timeout message distinct from a concrete failure message. -/
theorem getIntegrationInstructions_degraded_witness :
    ("File created successfully".data <:+:
      (getIntegrationInstructions "stripe" "stripe_util.py" "code" []
        IntegrationOutcome.timeout).data) ∧
    getIntegrationInstructions "stripe" "stripe_util.py" "code" [] IntegrationOutcome.timeout
      ≠ getIntegrationInstructions "stripe" "stripe_util.py" "code" []
          (IntegrationOutcome.failure "socket hang up") :=
  ⟨(getIntegrationInstructions_degraded "stripe" "stripe_util.py" "code" []).1,
   (getIntegrationInstructions_degraded "stripe" "stripe_util.py" "code" []).2.2.2
     "socket hang up"⟩

/-- C3: when the remote code-generation call fails with a transport error,
the orchestrator raises an error prefixed with `Failed to create SDK file:`
and no file is written; moreover a file write can only ever happen after the
generation call succeeded with non-empty parsed content. -/
theorem createSdkUtilFile_transport_error :
    (∀ (env : OrchEnv) (m : String), env.genOutcome = GenOutcome.transportError m →
      (∃ rest, (createSdkUtilFile env).1 = Except.error ("Failed to create SDK file: " ++ rest)) ∧
      (createSdkUtilFile env).2 = []) ∧
    (∀ env : OrchEnv, (createSdkUtilFile env).2 ≠ [] →
      ∃ c, env.genOutcome = GenOutcome.response (some c) ∧ c ≠ "") := by
  constructor
  · intro env m hg
    refine ⟨⟨"API call failed: " ++ m, ?_⟩, ?_⟩
    · simp [createSdkUtilFile, hg]
    · simp [createSdkUtilFile, hg]
  · intro env hne
    cases hg : env.genOutcome with
    | transportError m => simp [createSdkUtilFile, hg] at hne
    | parseError m => simp [createSdkUtilFile, hg] at hne
    | response contentOpt =>
      cases contentOpt with
      | none => simp [createSdkUtilFile, hg] at hne
      | some c =>
        by_cases hc : c = ""
        · subst hc
          simp [createSdkUtilFile, hg] at hne
        · exact ⟨c, rfl, hc⟩

/-- Witness for C3: a concrete run whose generation call throws. -/
theorem createSdkUtilFile_transport_error_witness :
    (∃ rest, (createSdkUtilFile (sampleEnv (GenOutcome.transportError "socket hang up"))).1
        = Except.error ("Failed to create SDK file: " ++ rest)) ∧
    (createSdkUtilFile (sampleEnv (GenOutcome.transportError "socket hang up"))).2 = [] :=
  createSdkUtilFile_transport_error.1 (sampleEnv (GenOutcome.transportError "socket hang up"))
    "socket hang up" rfl

/-- C10: a response whose `choices[0].message.content` is present but equal
to the empty string is treated exactly like a missing field: the falsy check
aborts the run with the fatal `No content found in AI response` error before
any code extraction or file write. -/
theorem createSdkUtilFile_empty_content (env : OrchEnv)
    (h : env.genOutcome = GenOutcome.response (some "")) :
    createSdkUtilFile env
      = (Except.error "Failed to create SDK file: No content found in AI response", []) := by
  simp [createSdkUtilFile, h]

/-- Witness for C10: a concrete run whose response content is empty. -/
theorem createSdkUtilFile_empty_content_witness :
    createSdkUtilFile (sampleEnv (GenOutcome.response (some "")))
      = (Except.error "Failed to create SDK file: No content found in AI response", []) :=
  createSdkUtilFile_empty_content (sampleEnv (GenOutcome.response (some ""))) rfl
